import Mathlib

/-!
Verification development for the jump-topic-note plugin.

The repository has two source files:

* `selectableItem.ts` — a reusable selection modal (`SelectableModal`) with
  keyboard (arrow keys, Enter, Escape) and pointer (click, mouseover,
  mouseleave) interaction over a list of items;
* `main.ts` — the orchestrator (`executeJumpLogic`) that reads a front-matter
  field, validates its entries as wikilinks, parses them, and either
  navigates directly (one link) or opens the modal (several links).

Strings are embedded as `List Char`.  The modal is embedded as an explicit
state record together with a step function over discrete input events; the
orchestrator is embedded as a pure function from the raw front-matter value
to the single user-visible effect it produces.
-/

/-! ### Wikilink surface syntax (main.ts, `/^\[\[.+?\]\]$/.test(item)`) -/

/-- Line-terminator characters: in the host regex dialect the `.` atom of the
pattern matches any character except these four. -/
def lineTerm (c : Char) : Bool :=
  c == '\n' || c == '\r' || c == '\u2028' || c == '\u2029'

/-- Matcher for the part of `^\[\[.+?\]\]$` after the two opening brackets:
the remaining characters must be a non-empty run of non-line-terminator
characters (`.+?`) followed by the closing `]]` at the very end of the
string.  The lazy quantifier tries to stop at each position; with the `$`
anchor this succeeds exactly when some split of the remainder into
`m ++ "]]"` with `m` non-empty and line-terminator-free exists. -/
def validTail : List Char → Bool
  | [] => false
  | c :: rest =>
      if rest = [']', ']'] then !lineTerm c
      else !lineTerm c && validTail rest

/-- Embedding of the validity test `/^\[\[.+?\]\]$/.test(item)` from
`executeJumpLogic` in main.ts: the string must begin with `[[` and the rest
must match `.+?\]\]$`. -/
def isValidWikilink (s : List Char) : Bool :=
  match s with
  | a :: b :: rest => a == '[' && b == '[' && validTail rest
  | _ => false

/-- Modelled from the spec: the link-reference surface form, "a string of the
exact form `[[<path>...]]` ... matching the outer double-bracket wrapper" —
an opening `[[`, a non-empty single-line body, and a closing `]]` at the end
of the string (the host pattern's `.` excludes line terminators). -/
def specLinkSurfaceForm (s : List Char) : Prop :=
  ∃ m : List Char, m ≠ [] ∧ (∀ c ∈ m, lineTerm c = false) ∧
    s = '[' :: '[' :: (m ++ [']', ']'])

/-! ### String helpers used by the parsing functions in main.ts -/

/-- The part of `l` strictly before the first occurrence of `d` (all of `l`
when `d` does not occur): `l.split(d)[0]` in the source. -/
def takeUntil (d : Char) (l : List Char) : List Char :=
  l.takeWhile (fun c => c != d)

/-- The part of `l` strictly after the first occurrence of `d` (empty when
`d` does not occur): the remainder from which `l.split(d)[1]` is cut. -/
def afterFirst (d : Char) (l : List Char) : List Char :=
  (l.dropWhile (fun c => c != d)).drop 1

/-- Embedding of JavaScript `String.prototype.substring(a, b)`: both
arguments are clamped into `[0, length]` and swapped when out of order. -/
def jsSubstring (l : List Char) (a b : Int) : List Char :=
  let n : Int := l.length
  let a2 : Int := min (max a 0) n
  let b2 : Int := min (max b 0) n
  (l.take (max a2 b2).toNat).drop (min a2 b2).toNat

/-- The segment of `l` after its last `/`, or all of `l` when there is no
`/`: the `lastIndexOf("/")` / `substring(lastSlashIndex + 1)` computation in
`extractDisplayNameFromWikilink`. -/
def lastSegment (l : List Char) : List Char :=
  if '/' ∈ l then ((l.reverse.takeWhile (fun c => c != '/')).reverse) else l

/-- Modelled from the spec: "keep only the final `/`-delimited segment" —
the maximal `/`-free suffix of the string. -/
def finalSlashSegment (l : List Char) : List Char :=
  (l.reverse.takeWhile (fun c => c != '/')).reverse

/-- Modelled from the spec: "strip any heading-reference or block-reference
suffix (delimited by `#` or `^`)" — the prefix before the first `#` or `^`. -/
def stripAnchorSuffix (l : List Char) : List Char :=
  l.takeWhile (fun c => c != '#' && c != '^')

/-- Assembles a raw wikilink string `[[` ++ core ++ `]]` from its body. -/
def mkWikilink (core : List Char) : List Char :=
  '[' :: '[' :: (core ++ [']', ']'])

/-! ### Parsing (main.ts) -/

/-- Embedding of `extractDisplayNameFromWikilink`: strip the outer brackets
with `substring(2, length - 2)`, split on `|` and take `parts[1]` when an
alias separator is present (`parts.length > 1`) else `parts[0]`, then keep
only the part after the last `/`. -/
def extractDisplayNameFromWikilink (wikilink : List Char) : List Char :=
  let bareLink := jsSubstring wikilink 2 ((wikilink.length : Int) - 2)
  let mainPart :=
    if '|' ∈ bareLink then takeUntil '|' (afterFirst '|' bareLink)
    else bareLink
  lastSegment mainPart

/-- Embedding of `extractInternalPathFromWikilink`: strip the outer brackets,
take the part before the alias separator (`parts[0]`), then drop a heading
reference (`split("#")[0]`) and a block reference (`split("^")[0]`). -/
def extractInternalPathFromWikilink (wikilink : List Char) : List Char :=
  let bareLink := jsSubstring wikilink 2 ((wikilink.length : Int) - 2)
  let linkPath := takeUntil '|' bareLink
  takeUntil '^' (takeUntil '#' linkPath)

/-! ### Orchestrator (main.ts, `executeJumpLogic`) -/

/-- A front-matter value as far as `executeJumpLogic` can observe it: a
string, an ordered sequence, or any other YAML value (number, boolean,
object, nested null, ...). -/
inductive FmValue where
  | str (s : List Char)
  | list (xs : List FmValue)
  | other

/-- An item handed to the selection modal by the orchestrator: the parsed
display name and the original wikilink text (`ParentTopicItem` in main.ts). -/
structure ParentTopicItem where
  name : List Char
  linkText : List Char
deriving DecidableEq

/-- The single user-visible effect produced by one run of
`executeJumpLogic`: nothing, one of the two notices, one direct navigation
attempt (identified by the internal path handed to the host resolver), or
opening the selection modal. -/
inductive JumpEffect where
  | noop
  | noticeNotList
  | noticeInvalidEntries
  | navigateTo (internalPath : List Char)
  | openPicker (title : String) (items : List ParentTopicItem)
deriving DecidableEq

/-- The modal title passed by the orchestrator. -/
def selectTitle : String := "Select superior topic note"

/-- One entry fails the link validity check: it is not a string, or it is a
string rejected by the wikilink pattern. -/
def entryInvalid : FmValue → Bool
  | .str s => !isValidWikilink s
  | _ => true

/-- Embedding of the validation loop of `executeJumpLogic`: returns the
valid wikilinks in order (`validWikilinks`) and whether any invalid entry
was seen (`invalidEntriesFound`). -/
def classifyEntries : List FmValue → List (List Char) × Bool
  | [] => ([], false)
  | x :: rest =>
      let r := classifyEntries rest
      match x with
      | .str s => if isValidWikilink s then (s :: r.1, r.2) else (r.1, true)
      | _ => (r.1, true)

/-- Embedding of `executeJumpLogic` (main.ts) as a function from the raw
front-matter field value to the effect it produces.  `none` models the field
being `undefined` or `null`.  Direct navigation is represented by the
internal path that `navigateToLink` extracts and hands to the host resolver. -/
def executeJumpLogic (raw : Option FmValue) : JumpEffect :=
  match raw with
  | none => .noop
  | some (.list xs) =>
      if xs.length = 0 then .noop
      else
        let p := classifyEntries xs
        if p.2 then .noticeInvalidEntries
        else if p.1.length = 0 then .noop
        else if p.1.length = 1 then
          .navigateTo (extractInternalPathFromWikilink (p.1.headD []))
        else
          .openPicker selectTitle
            (p.1.map (fun link => ⟨extractDisplayNameFromWikilink link, link⟩))
  | some _ => .noticeNotList

/-- Embedding of the selection callback the orchestrator installs on the
modal (`async (selectedItem) => navigateToLink(selectedItem.linkText, ...)`):
selecting an item navigates to the internal path of its wikilink text. -/
def jumpSelectionNavigatesTo (it : ParentTopicItem) : List Char :=
  extractInternalPathFromWikilink it.linkText

/-! ### Selection modal (selectableItem.ts, `SelectableModal`) -/

/-- The per-session state of an open `SelectableModal`: the item list, the
keyboard highlight `activeIndex`, the pointer highlight `hoveredIndex`,
whether the modal is still open, which rendered row currently carries the
`is-focused` class (`focusedIndex`), and the log of arguments passed to the
selection callback. -/
structure SelectableModalState (T : Type) where
  items : List T
  activeIndex : Int
  hoveredIndex : Option Int
  isOpen : Bool
  focusedIndex : Option Int
  callbackLog : List T
deriving DecidableEq

/-- The discrete input events the modal reacts to. -/
inductive ModalEvent where
  | arrowUp
  | arrowDown
  | enter
  | escape
  | click (i : Int)
  | mouseOver (i : Int)
  | mouseLeave
deriving DecidableEq

/-- Events used by the keyboard/pointer highlight machinery only (the ones
that neither select nor dismiss). -/
def navEvent : ModalEvent → Bool
  | .arrowUp => true
  | .arrowDown => true
  | .mouseOver _ => true
  | .mouseLeave => true
  | _ => false

/-- Embedding of `focusItem(index?)`: `index ?? -1`, then the row whose
index matches gets the `is-focused` class and every other row loses it, so
the rendered highlight is `index` when it denotes an existing row and absent
otherwise. -/
def focusItem {T : Type} (st : SelectableModalState T) (idx : Option Int) :
    SelectableModalState T :=
  let j : Int := idx.getD (-1)
  { st with focusedIndex :=
      if 0 ≤ j ∧ j < (st.items.length : Int) then some j else none }

/-- Embedding of `close()` / `onClose()`: the modal leaves the Open state,
the rendered rows are discarded, and `hoveredIndex` is reset to null. -/
def closeModal {T : Type} (st : SelectableModalState T) :
    SelectableModalState T :=
  { st with isOpen := false, hoveredIndex := none, focusedIndex := none }

/-- Embedding of `selectItem(index)`: only for an in-range index the
selection callback is invoked with `items[index]` and the modal closes;
otherwise nothing at all happens. -/
def selectItem {T : Type} (st : SelectableModalState T) (index : Int) :
    SelectableModalState T :=
  if 0 ≤ index ∧ index < (st.items.length : Int) then
    closeModal
      { st with callbackLog := st.callbackLog ++ (st.items.get? index.toNat).toList }
  else st

/-- Embedding of `navigateItems(direction)`: a pending hover is folded into
`activeIndex` and cleared, then the new index is computed with circular
wrap-around, and the new active row is focused.  While the modal is open
`itemElements` is in one-to-one correspondence with `items`, so the source's
`itemElements.length` is `items.length` here. -/
def navigateItems {T : Type} (st : SelectableModalState T) (direction : Int) :
    SelectableModalState T :=
  if st.items.length = 0 then st
  else
    let base : SelectableModalState T :=
      match st.hoveredIndex with
      | some h => { st with activeIndex := h, hoveredIndex := none }
      | none => st
    let newIndex : Int := base.activeIndex + direction
    let nextIndex : Int :=
      if newIndex < 0 then (st.items.length : Int) - 1
      else if (st.items.length : Int) ≤ newIndex then 0
      else newIndex
    focusItem { base with activeIndex := nextIndex } (some nextIndex)

/-- Embedding of `handleMouseOver(index)`: record the hover and focus the
hovered row. -/
def handleMouseOver {T : Type} (st : SelectableModalState T) (index : Int) :
    SelectableModalState T :=
  focusItem { st with hoveredIndex := some index } (some index)

/-- Embedding of `handleMouseLeave()`: clear the hover and remove the
`is-focused` class from every row. -/
def handleMouseLeave {T : Type} (st : SelectableModalState T) :
    SelectableModalState T :=
  focusItem { st with hoveredIndex := none } none

/-- One reaction of the open modal to an input event; after the modal has
closed its scope handlers and rows are gone, so events change nothing. -/
def modalStep {T : Type} (st : SelectableModalState T) (e : ModalEvent) :
    SelectableModalState T :=
  if st.isOpen then
    match e with
    | .arrowUp => navigateItems st (-1)
    | .arrowDown => navigateItems st 1
    | .enter =>
        if 0 ≤ st.activeIndex ∧ st.activeIndex < (st.items.length : Int) then
          selectItem st st.activeIndex
        else st
    | .escape => closeModal st
    | .click i => selectItem st i
    | .mouseOver i => handleMouseOver st i
    | .mouseLeave => handleMouseLeave st
  else st

/-- Embedding of constructing the modal and `onOpen()`: fresh state with
`activeIndex = 0`, no hover, empty callback log; when the list is non-empty
`activeIndex` is set to 0 and the first row is focused. -/
def openModal {T : Type} (items : List T) : SelectableModalState T :=
  let st0 : SelectableModalState T := ⟨items, 0, none, true, none, []⟩
  if items.length = 0 then st0
  else focusItem { st0 with activeIndex := 0 } (some 0)

/-- The state of one modal session after the given sequence of events. -/
def runModal {T : Type} (items : List T) (evs : List ModalEvent) :
    SelectableModalState T :=
  evs.foldl modalStep (openModal items)

/-! ### Generic list lemmas -/

theorem takeWhile_of_all {α : Type} (p : α → Bool) (l : List α)
    (h : ∀ a ∈ l, p a = true) : l.takeWhile p = l := by
  induction l with
  | nil => rfl
  | cons a l ih =>
      rw [List.takeWhile_cons_of_pos (h a (List.mem_cons_self a l)),
        ih (fun x hx => h x (List.mem_cons_of_mem a hx))]

theorem takeWhile_append_cons {α : Type} (p : α → Bool) (l r : List α) (x : α)
    (hl : ∀ a ∈ l, p a = true) (hx : p x = false) :
    (l ++ x :: r).takeWhile p = l := by
  induction l with
  | nil => simp [List.takeWhile_cons, hx]
  | cons a l ih =>
      rw [List.cons_append,
        List.takeWhile_cons_of_pos (hl a (List.mem_cons_self a l)),
        ih (fun y hy => hl y (List.mem_cons_of_mem a hy))]

theorem dropWhile_append_cons {α : Type} (p : α → Bool) (l r : List α) (x : α)
    (hl : ∀ a ∈ l, p a = true) (hx : p x = false) :
    (l ++ x :: r).dropWhile p = x :: r := by
  induction l with
  | nil => simp [List.dropWhile_cons, hx]
  | cons a l ih =>
      rw [List.cons_append,
        List.dropWhile_cons_of_pos (hl a (List.mem_cons_self a l)),
        ih (fun y hy => hl y (List.mem_cons_of_mem a hy))]

theorem takeWhile_comp {α : Type} (p q : α → Bool) (l : List α) :
    (l.takeWhile p).takeWhile q = l.takeWhile (fun a => p a && q a) := by
  induction l with
  | nil => rfl
  | cons a l ih =>
      cases hp : p a with
      | false => simp [List.takeWhile_cons, hp]
      | true =>
          cases hq : q a with
          | false => simp [List.takeWhile_cons, hp, hq]
          | true => simp [List.takeWhile_cons, hp, hq, ih]

/-! ### Characterization of the wikilink validity test -/

theorem validTail_iff (l : List Char) :
    validTail l = true ↔
      ∃ m, m ≠ [] ∧ (∀ c ∈ m, lineTerm c = false) ∧ l = m ++ [']', ']'] := by
  induction l with
  | nil =>
      constructor
      · intro h; exact absurd h (by simp [validTail])
      · rintro ⟨m, -, -, heq⟩
        have := heq.symm
        simp at this
  | cons c rest ih =>
      by_cases hr : rest = [']', ']']
      · subst hr
        simp only [validTail, if_pos rfl]
        constructor
        · intro h
          refine ⟨[c], by simp, ?_, by simp⟩
          intro x hx
          rcases List.mem_singleton.mp hx with rfl
          simpa using h
        · rintro ⟨m, hm, hlt, heq⟩
          have hlen : m.length = 1 := by
            have h1 := congrArg List.length heq
            simp at h1
            omega
          rcases m with _ | ⟨x, m'⟩
          · simp at hlen
          rcases m' with _ | ⟨y, m''⟩
          · simp at heq
            rcases heq with ⟨rfl, -⟩
            simp [hlt c (by simp)]
          · simp at hlen
      · simp only [validTail, if_neg hr, Bool.and_eq_true, Bool.not_eq_true']
        constructor
        · rintro ⟨hc, hv⟩
          obtain ⟨m', hm', hlt', rfl⟩ := ih.mp hv
          refine ⟨c :: m', by simp, ?_, by simp⟩
          intro x hx
          rcases List.mem_cons.mp hx with rfl | hx'
          · exact hc
          · exact hlt' x hx'
        · rintro ⟨m, hm, hlt, heq⟩
          rcases m with _ | ⟨x, m'⟩
          · exact absurd rfl hm
          simp only [List.cons_append, List.cons.injEq] at heq
          obtain ⟨rfl, h2⟩ := heq
          have hm' : m' ≠ [] := by
            rintro rfl
            exact hr (by simpa using h2)
          exact ⟨hlt c (by simp),
            ih.mpr ⟨m', hm', fun y hy => hlt y (List.mem_cons_of_mem _ hy), h2⟩⟩

/-- C5: the link-entry validity check accepts a string if and only if it has
the wrapped-double-bracket surface form — an opening `[[`, a non-empty
single-line body, and a closing `]]` ending the string — and rejects every
other string, including strings that merely contain well-formed links
embedded in larger text (such strings do not have this form). -/
theorem isValidWikilink_iff_surfaceForm (s : List Char) :
    isValidWikilink s = true ↔ specLinkSurfaceForm s := by
  cases s with
  | nil => simp [isValidWikilink, specLinkSurfaceForm]
  | cons a t =>
      cases t with
      | nil => simp [isValidWikilink, specLinkSurfaceForm]
      | cons b rest =>
          simp only [isValidWikilink, Bool.and_eq_true, beq_iff_eq,
            specLinkSurfaceForm]
          constructor
          · rintro ⟨⟨rfl, rfl⟩, hv⟩
            obtain ⟨m, hm, hlt, rfl⟩ := (validTail_iff rest).mp hv
            exact ⟨m, hm, hlt, rfl⟩
          · rintro ⟨m, hm, hlt, heq⟩
            simp only [List.cons.injEq] at heq
            obtain ⟨rfl, rfl, hrest⟩ := heq
            exact ⟨⟨rfl, rfl⟩, (validTail_iff rest).mpr ⟨m, hm, hlt, hrest⟩⟩

/-- Witness for C5 at the concrete string `"[[A]]"`. -/
theorem isValidWikilink_iff_surfaceForm_witness :
    isValidWikilink ['[', '[', 'A', ']', ']'] = true ∧
      specLinkSurfaceForm ['[', '[', 'A', ']', ']'] :=
  ⟨by decide, (isValidWikilink_iff_surfaceForm ['[', '[', 'A', ']', ']']).mp
    (by decide)⟩

/-! ### Lemmas about the string helpers -/

theorem takeUntil_of_not_mem (d : Char) (l : List Char) (h : d ∉ l) :
    takeUntil d l = l :=
  takeWhile_of_all _ _ (fun a ha => by
    have hne : a ≠ d := fun he => h (he ▸ ha)
    simp [hne])

theorem takeUntil_append_cons (d : Char) (l r : List Char) (h : d ∉ l) :
    takeUntil d (l ++ d :: r) = l :=
  takeWhile_append_cons _ _ _ _ (fun a ha => by
    have hne : a ≠ d := fun he => h (he ▸ ha)
    simp [hne]) (by simp)

theorem afterFirst_append_cons (d : Char) (l r : List Char) (h : d ∉ l) :
    afterFirst d (l ++ d :: r) = r := by
  unfold afterFirst
  rw [dropWhile_append_cons _ _ _ _ (fun a ha => by
    have hne : a ≠ d := fun he => h (he ▸ ha)
    simp [hne]) (by simp)]
  rfl

theorem lastSegment_eq_finalSlashSegment (l : List Char) :
    lastSegment l = finalSlashSegment l := by
  unfold lastSegment finalSlashSegment
  by_cases h : '/' ∈ l
  · rw [if_pos h]
  · rw [if_neg h]
    have hall : ∀ a ∈ l.reverse, (a != '/') = true := by
      intro a ha
      have ha' : a ∈ l := List.mem_reverse.mp ha
      have hne : a ≠ '/' := fun he => h (he ▸ ha')
      simp [hne]
    rw [takeWhile_of_all _ _ hall, List.reverse_reverse]

theorem takeUntil_anchors (p : List Char) :
    takeUntil '^' (takeUntil '#' p) = stripAnchorSuffix p := by
  unfold takeUntil stripAnchorSuffix
  rw [takeWhile_comp]

theorem jsSubstring_take_drop (l : List Char) (a b : Int)
    (ha : 0 ≤ a) (hab : a ≤ b) (hb : b ≤ (l.length : Int)) :
    jsSubstring l a b = (l.take b.toNat).drop a.toNat := by
  simp only [jsSubstring]
  have h1 : min (max a 0) (l.length : Int) = a := by omega
  have h2 : min (max b 0) (l.length : Int) = b := by omega
  rw [h1, h2, max_eq_right hab, min_eq_left hab]

theorem jsSubstring_strip_brackets (core : List Char) :
    jsSubstring (mkWikilink core) 2 (((mkWikilink core).length : Int) - 2)
      = core := by
  have hl : (mkWikilink core).length = core.length + 4 := by
    simp [mkWikilink]
  rw [jsSubstring_take_drop _ _ _ (by omega) (by omega) (by omega)]
  have h4 : ((((mkWikilink core).length : Int)) - 2).toNat = core.length + 2 := by
    omega
  rw [h4]
  have hform : mkWikilink core = ('[' :: '[' :: core) ++ [']', ']'] := by
    simp [mkWikilink]
  rw [hform]
  have h3 : ('[' :: '[' :: core).length = core.length + 2 := by simp
  rw [← h3, List.take_left]
  rfl

/-- C7: parsing a raw link-reference derives the display name from the alias
(the part after the alias separator) when present and from the raw path
otherwise, keeping only the final slash-delimited segment of that basis,
while the resolvable path is independently derived from the un-aliased left
side with any heading (`#`) or block (`^`) reference suffix stripped. -/
theorem wikilink_parsing_rule (p a : List Char)
    (hp : '|' ∉ p) (ha : '|' ∉ a) :
    extractDisplayNameFromWikilink (mkWikilink (p ++ '|' :: a))
        = finalSlashSegment a
    ∧ extractDisplayNameFromWikilink (mkWikilink p) = finalSlashSegment p
    ∧ extractInternalPathFromWikilink (mkWikilink (p ++ '|' :: a))
        = stripAnchorSuffix p
    ∧ extractInternalPathFromWikilink (mkWikilink p) = stripAnchorSuffix p := by
  have hba := jsSubstring_strip_brackets (p ++ '|' :: a)
  have hbp := jsSubstring_strip_brackets p
  have hmem : '|' ∈ p ++ '|' :: a :=
    List.mem_append.mpr (Or.inr (List.mem_cons_self _ _))
  refine ⟨?_, ?_, ?_, ?_⟩
  · simp only [extractDisplayNameFromWikilink, hba]
    rw [if_pos hmem, afterFirst_append_cons _ _ _ hp,
      takeUntil_of_not_mem _ _ ha, lastSegment_eq_finalSlashSegment]
  · simp only [extractDisplayNameFromWikilink, hbp]
    rw [if_neg hp, lastSegment_eq_finalSlashSegment]
  · simp only [extractInternalPathFromWikilink, hba]
    rw [takeUntil_append_cons _ _ _ hp, takeUntil_anchors]
  · simp only [extractInternalPathFromWikilink, hbp]
    rw [takeUntil_of_not_mem _ _ hp, takeUntil_anchors]

/-- Witness for C7 at the aliased link `"[[Folder/Topic B#Heading|Custom Alias]]"`. -/
theorem wikilink_parsing_rule_witness :
    ('|' ∉ "Folder/Topic B#Heading".toList)
    ∧ extractDisplayNameFromWikilink
        (mkWikilink ("Folder/Topic B#Heading".toList ++ '|' :: "Custom Alias".toList))
      = finalSlashSegment "Custom Alias".toList
    ∧ extractInternalPathFromWikilink
        (mkWikilink ("Folder/Topic B#Heading".toList ++ '|' :: "Custom Alias".toList))
      = stripAnchorSuffix "Folder/Topic B#Heading".toList :=
  ⟨by decide,
    (wikilink_parsing_rule _ _ (by decide) (by decide)).1,
    (wikilink_parsing_rule _ _ (by decide) (by decide)).2.2.1⟩

/-! ### Lemmas about the orchestrator's validation loop -/

theorem classifyEntries_all_valid (ss : List (List Char))
    (h : ∀ s ∈ ss, isValidWikilink s = true) :
    classifyEntries (ss.map FmValue.str) = (ss, false) := by
  induction ss with
  | nil => rfl
  | cons s rest ih =>
      simp only [List.map_cons, classifyEntries]
      rw [ih (fun x hx => h x (List.mem_cons_of_mem _ hx))]
      simp [h s (List.mem_cons_self _ _)]

theorem classifyEntries_invalid (xs : List FmValue)
    (h : ∃ x ∈ xs, entryInvalid x = true) :
    (classifyEntries xs).2 = true := by
  induction xs with
  | nil =>
      rcases h with ⟨x, hx, -⟩
      exact absurd hx (List.not_mem_nil x)
  | cons y rest ih =>
      rcases h with ⟨x, hx, hinv⟩
      rcases List.mem_cons.mp hx with rfl | hx'
      · cases x with
        | str s =>
            have hs : isValidWikilink s = false := by
              simpa [entryInvalid] using hinv
            simp [classifyEntries, hs]
        | list l => simp [classifyEntries]
        | other => simp [classifyEntries]
      · have h2 := ih ⟨x, hx', hinv⟩
        cases y with
        | str s =>
            cases hv : isValidWikilink s <;> simp [classifyEntries, hv, h2]
        | list l => simp [classifyEntries]
        | other => simp [classifyEntries]

/-- C4: when the field is a sequence with at least one entry failing the
link-reference check, the jump operation produces exactly the single
invalid-entries warning — no navigation attempt, no picker, and no partial
processing of the valid entries. -/
theorem invalid_entries_fail_fast (xs : List FmValue)
    (h : ∃ x ∈ xs, entryInvalid x = true) :
    executeJumpLogic (some (FmValue.list xs))
      = JumpEffect.noticeInvalidEntries := by
  have hne : xs ≠ [] := by
    rcases h with ⟨x, hx, -⟩
    exact List.ne_nil_of_mem hx
  have hlen : ¬ xs.length = 0 := by
    simpa [List.length_eq_zero] using hne
  simp [executeJumpLogic, hlen, classifyEntries_invalid xs h]

/-- Witness for C4 at the concrete list `["[[A]]", "plain text"]`. -/
theorem invalid_entries_fail_fast_witness :
    (∃ x ∈ [FmValue.str "[[A]]".toList, FmValue.str "plain text".toList],
        entryInvalid x = true)
    ∧ executeJumpLogic (some (FmValue.list
        [FmValue.str "[[A]]".toList, FmValue.str "plain text".toList]))
      = JumpEffect.noticeInvalidEntries :=
  ⟨by decide, invalid_entries_fail_fast _ (by decide)⟩

/-- C9: an absent or null field, and a field holding an empty sequence, are
complete no-ops: no notification, no navigation attempt, no picker. -/
theorem absent_or_empty_noop :
    executeJumpLogic none = JumpEffect.noop
    ∧ executeJumpLogic (some (FmValue.list [])) = JumpEffect.noop :=
  ⟨by decide, by decide⟩

/-- C6: over an all-valid header list the orchestrator navigates directly
when there is exactly one link (no picker), and for two or more opens the
picker titled "Select superior topic note" whose items carry the parsed
display names in header order; selecting the k-th item navigates to the
k-th link's internal path. -/
theorem orchestrator_single_vs_picker (ss : List (List Char))
    (hv : ∀ s ∈ ss, isValidWikilink s = true) :
    (∀ s, ss = [s] →
        executeJumpLogic (some (FmValue.list (ss.map FmValue.str)))
          = JumpEffect.navigateTo (extractInternalPathFromWikilink s))
    ∧ (2 ≤ ss.length →
        executeJumpLogic (some (FmValue.list (ss.map FmValue.str)))
          = JumpEffect.openPicker selectTitle
              (ss.map (fun s => ⟨extractDisplayNameFromWikilink s, s⟩))
        ∧ selectTitle = "Select superior topic note"
        ∧ ∀ k : Nat,
            ((ss.map (fun s =>
                ParentTopicItem.mk (extractDisplayNameFromWikilink s) s))[k]?).map
                jumpSelectionNavigatesTo
              = (ss[k]?).map extractInternalPathFromWikilink) := by
  have hcl := classifyEntries_all_valid ss hv
  constructor
  · rintro s rfl
    have hcl' : classifyEntries [FmValue.str s] = ([s], false) := by
      simpa using hcl
    simp [executeJumpLogic, hcl']
  · intro h2
    have e0 : ss.length ≠ 0 := by omega
    have e1 : ss.length ≠ 1 := by omega
    refine ⟨?_, rfl, ?_⟩
    · simp [executeJumpLogic, hcl, e0, e1]
    · intro k
      cases hk : ss[k]? <;>
        simp [List.getElem?_map, hk, jumpSelectionNavigatesTo]

/-- Witness for C6 at the concrete header list `["[[A]]", "[[B]]"]`. -/
theorem orchestrator_single_vs_picker_witness :
    (∀ s ∈ ["[[A]]".toList, "[[B]]".toList], isValidWikilink s = true)
    ∧ executeJumpLogic (some (FmValue.list
        (["[[A]]".toList, "[[B]]".toList].map FmValue.str)))
      = JumpEffect.openPicker selectTitle
          (["[[A]]".toList, "[[B]]".toList].map
            (fun s => ⟨extractDisplayNameFromWikilink s, s⟩)) :=
  ⟨by decide,
    ((orchestrator_single_vs_picker _ (by decide)).2 (by decide)).1⟩

/-! ### Lemmas about the selection modal -/

theorem focusItem_items {T : Type} (st : SelectableModalState T)
    (idx : Option Int) : (focusItem st idx).items = st.items := rfl

theorem focusItem_activeIndex {T : Type} (st : SelectableModalState T)
    (idx : Option Int) : (focusItem st idx).activeIndex = st.activeIndex := rfl

theorem focusItem_isOpen {T : Type} (st : SelectableModalState T)
    (idx : Option Int) : (focusItem st idx).isOpen = st.isOpen := rfl

theorem focusItem_callbackLog {T : Type} (st : SelectableModalState T)
    (idx : Option Int) : (focusItem st idx).callbackLog = st.callbackLog := rfl

theorem selectItem_items {T : Type} (st : SelectableModalState T) (i : Int) :
    (selectItem st i).items = st.items := by
  unfold selectItem
  split_ifs <;> rfl

theorem navigateItems_items {T : Type} (st : SelectableModalState T)
    (d : Int) : (navigateItems st d).items = st.items := by
  unfold navigateItems
  by_cases h : st.items.length = 0
  · rw [if_pos h]
  · rw [if_neg h]
    cases hh : st.hoveredIndex <;> simp [hh, focusItem]

theorem navigateItems_isOpen {T : Type} (st : SelectableModalState T)
    (d : Int) : (navigateItems st d).isOpen = st.isOpen := by
  unfold navigateItems
  by_cases h : st.items.length = 0
  · rw [if_pos h]
  · rw [if_neg h]
    cases hh : st.hoveredIndex <;> simp [hh, focusItem]

theorem navigateItems_callbackLog {T : Type} (st : SelectableModalState T)
    (d : Int) : (navigateItems st d).callbackLog = st.callbackLog := by
  unfold navigateItems
  by_cases h : st.items.length = 0
  · rw [if_pos h]
  · rw [if_neg h]
    cases hh : st.hoveredIndex <;> simp [hh, focusItem]

theorem navigateItems_active_bound {T : Type} (st : SelectableModalState T)
    (d : Int) (h : 1 ≤ st.items.length) :
    0 ≤ (navigateItems st d).activeIndex
    ∧ (navigateItems st d).activeIndex < (st.items.length : Int) := by
  unfold navigateItems
  have h0 : ¬ st.items.length = 0 := by omega
  rw [if_neg h0]
  cases hh : st.hoveredIndex with
  | none =>
      simp only [hh, focusItem]
      split_ifs <;> constructor <;> omega
  | some hv =>
      simp only [hh, focusItem]
      split_ifs <;> constructor <;> omega

theorem modalStep_items {T : Type} (st : SelectableModalState T)
    (e : ModalEvent) : (modalStep st e).items = st.items := by
  unfold modalStep
  by_cases h : st.isOpen = true
  · rw [if_pos h]
    cases e with
    | arrowUp => exact navigateItems_items st (-1)
    | arrowDown => exact navigateItems_items st 1
    | enter =>
        split_ifs with hc
        · exact selectItem_items st st.activeIndex
        · rfl
    | escape => rfl
    | click i => exact selectItem_items st i
    | mouseOver i => rfl
    | mouseLeave => rfl
  · rw [if_neg h]

/-- C8: over any sequence of highlight-machinery events (move-highlight,
pointer-enter, pointer-leave) after opening, `activeIndex` stays a valid
index into the list (it wraps and is never out of range), and on entering
the Open state `activeIndex` is 0 with the item at index 0 rendered
highlighted. -/
theorem modal_open_highlight_and_active_range (T : Type) (items : List T)
    (evs : List ModalEvent) (hlen : 1 ≤ items.length)
    (hnav : ∀ e ∈ evs, navEvent e = true) :
    (0 ≤ (runModal items evs).activeIndex
      ∧ (runModal items evs).activeIndex < (items.length : Int))
    ∧ (openModal items).activeIndex = 0
    ∧ (openModal items).focusedIndex = some 0 := by
  have ho1 : (openModal (T := T) items).items = items := by
    unfold openModal
    split_ifs <;> rfl
  have ho2 : (openModal (T := T) items).activeIndex = 0 := by
    unfold openModal
    split_ifs <;> rfl
  have key : ∀ (l : List ModalEvent) (st : SelectableModalState T),
      (∀ e ∈ l, navEvent e = true) → st.items = items →
      0 ≤ st.activeIndex → st.activeIndex < (items.length : Int) →
      0 ≤ (l.foldl modalStep st).activeIndex
        ∧ (l.foldl modalStep st).activeIndex < (items.length : Int) := by
    intro l
    induction l with
    | nil =>
        intro st _ _ h1 h2
        exact ⟨h1, h2⟩
    | cons e l ih =>
        intro st hl hitems h1 h2
        rw [List.foldl_cons]
        have he := hl e (List.mem_cons_self _ _)
        have hlst : 1 ≤ st.items.length := by rw [hitems]; exact hlen
        have hbounds : 0 ≤ (modalStep st e).activeIndex
            ∧ (modalStep st e).activeIndex < (items.length : Int) := by
          by_cases ho : st.isOpen = true
          · cases e with
            | arrowUp =>
                have hb := navigateItems_active_bound st (-1) hlst
                rw [hitems] at hb
                simpa [modalStep, ho] using hb
            | arrowDown =>
                have hb := navigateItems_active_bound st 1 hlst
                rw [hitems] at hb
                simpa [modalStep, ho] using hb
            | enter => simp [navEvent] at he
            | escape => simp [navEvent] at he
            | click i => simp [navEvent] at he
            | mouseOver i =>
                simpa [modalStep, ho, handleMouseOver, focusItem]
                  using And.intro h1 h2
            | mouseLeave =>
                simpa [modalStep, ho, handleMouseLeave, focusItem]
                  using And.intro h1 h2
          · simpa [modalStep, ho] using And.intro h1 h2
        refine ih (modalStep st e) (fun x hx => hl x (List.mem_cons_of_mem _ hx))
          ?_ hbounds.1 hbounds.2
        rw [modalStep_items, hitems]
  refine ⟨?_, ho2, ?_⟩
  · exact key evs (openModal items) hnav ho1 (by rw [ho2]) (by rw [ho2]; omega)
  · unfold openModal
    have h0 : ¬ items.length = 0 := by omega
    rw [if_neg h0]
    simp only [focusItem, Option.getD]
    rw [if_pos ⟨le_refl 0, by omega⟩]

/-- Witness for C8 over a two-item list and a hover--move--leave trace. -/
theorem modal_open_highlight_and_active_range_witness :
    (1 ≤ ([10, 20] : List Nat).length)
    ∧ (0 ≤ (runModal ([10, 20] : List Nat)
          [ModalEvent.mouseOver 1, ModalEvent.arrowDown,
            ModalEvent.mouseLeave]).activeIndex
      ∧ (runModal ([10, 20] : List Nat)
          [ModalEvent.mouseOver 1, ModalEvent.arrowDown,
            ModalEvent.mouseLeave]).activeIndex < (([10, 20] : List Nat).length : Int))
    ∧ (openModal ([10, 20] : List Nat)).activeIndex = 0
    ∧ (openModal ([10, 20] : List Nat)).focusedIndex = some 0 :=
  ⟨by decide,
    (modal_open_highlight_and_active_range Nat [10, 20]
      [ModalEvent.mouseOver 1, ModalEvent.arrowDown, ModalEvent.mouseLeave]
      (by decide) (by decide)).1,
    (modal_open_highlight_and_active_range Nat [10, 20]
      [ModalEvent.mouseOver 1, ModalEvent.arrowDown, ModalEvent.mouseLeave]
      (by decide) (by decide)).2⟩

/-- C2: a pointer-enter on index i followed immediately by move-highlight(+1)
always leaves the highlighted (and active) index at (i+1) mod n, regardless
of the value of activeIndex before the hover. -/
theorem pointer_enter_then_move_highlight (T : Type)
    (st : SelectableModalState T) (i : Int)
    (hopen : st.isOpen = true) (hlen : 1 ≤ st.items.length)
    (h0 : 0 ≤ i) (hi : i < (st.items.length : Int)) :
    (modalStep (modalStep st (ModalEvent.mouseOver i))
        ModalEvent.arrowDown).activeIndex
      = (i + 1) % (st.items.length : Int)
    ∧ (modalStep (modalStep st (ModalEvent.mouseOver i))
        ModalEvent.arrowDown).focusedIndex
      = some ((i + 1) % (st.items.length : Int)) := by
  have hne : ¬ st.items.length = 0 := by omega
  have hmod : (i + 1) % (st.items.length : Int)
      = if (st.items.length : Int) ≤ i + 1 then 0 else i + 1 := by
    by_cases hle : (st.items.length : Int) ≤ i + 1
    · rw [if_pos hle]
      have he : i + 1 = (st.items.length : Int) := by omega
      rw [he, Int.emod_self]
    · rw [if_neg hle]
      exact Int.emod_eq_of_lt (by omega) (by omega)
  rw [hmod]
  simp only [modalStep, hopen, if_true, handleMouseOver, focusItem,
    Option.getD, navigateItems, hne]
  split_ifs <;> simp_all <;> omega

/-- C1 counterexample: in the session over the two-item list `[10, 20]`,
after a pointer-enter on index 1 the rendered highlight (and hoveredIndex)
is index 1, yet Confirm (Enter) invokes the callback with `items[0] = 10`,
not with the rendered-highlighted item `items[1] = 20` — so Confirm is not
equivalent to selecting the rendered highlight when a hover is pending. -/
theorem confirm_ignores_hover_counterexample :
    ((modalStep (openModal ([10, 20] : List Nat))
        (ModalEvent.mouseOver 1)).hoveredIndex = some 1
      ∧ (modalStep (openModal ([10, 20] : List Nat))
        (ModalEvent.mouseOver 1)).focusedIndex = some 1)
    ∧ (modalStep (modalStep (openModal ([10, 20] : List Nat))
        (ModalEvent.mouseOver 1)) ModalEvent.enter).callbackLog = [10]
    ∧ [10] ≠ [20] := by decide

/-- C1 (amended): in the Open state, Confirm (Enter) performs a direct
selection on `activeIndex`: the callback is invoked with
`items[activeIndex]` and the picker closes.  This coincides with the
rendered highlight only when `hoveredIndex` is unset or equal to
`activeIndex`; a pending hover on a different index does not change what
Confirm selects. -/
theorem confirm_selects_activeIndex (T : Type) (st : SelectableModalState T)
    (hopen : st.isOpen = true) (h0 : 0 ≤ st.activeIndex)
    (hi : st.activeIndex < (st.items.length : Int)) :
    modalStep st ModalEvent.enter = selectItem st st.activeIndex
    ∧ (∃ x, st.items.get? st.activeIndex.toNat = some x
        ∧ (modalStep st ModalEvent.enter).callbackLog = st.callbackLog ++ [x])
    ∧ (modalStep st ModalEvent.enter).isOpen = false := by
  have hcond : 0 ≤ st.activeIndex ∧ st.activeIndex < (st.items.length : Int) :=
    ⟨h0, hi⟩
  have hstep : modalStep st ModalEvent.enter = selectItem st st.activeIndex := by
    simp [modalStep, hopen, hcond]
  have hn : st.activeIndex.toNat < st.items.length := by omega
  refine ⟨hstep, ⟨st.items.get ⟨st.activeIndex.toNat, hn⟩,
    List.get?_eq_get hn, ?_⟩, ?_⟩
  · rw [hstep]
    unfold selectItem
    rw [if_pos hcond]
    simp [closeModal, List.get?_eq_get hn, List.getElem?_eq_getElem hn]
  · rw [hstep]
    unfold selectItem
    rw [if_pos hcond]
    rfl

/-- Witness for C2 in a freshly opened three-item session hovering index 2. -/
theorem pointer_enter_then_move_highlight_witness :
    ((openModal ([4, 5, 6] : List Nat)).isOpen = true
      ∧ 1 ≤ (openModal ([4, 5, 6] : List Nat)).items.length)
    ∧ (modalStep (modalStep (openModal ([4, 5, 6] : List Nat))
        (ModalEvent.mouseOver 2)) ModalEvent.arrowDown).activeIndex
      = (2 + 1) % (((openModal ([4, 5, 6] : List Nat)).items.length : Int)) :=
  ⟨⟨by decide, by decide⟩,
    (pointer_enter_then_move_highlight Nat (openModal [4, 5, 6]) 2
      (by decide) (by decide) (by decide) (by decide)).1⟩

/-- Witness for the amended C1 in a freshly opened two-item session. -/
theorem confirm_selects_activeIndex_witness :
    (openModal ([10, 20] : List Nat)).isOpen = true
    ∧ (∃ x, (openModal ([10, 20] : List Nat)).items.get?
          (openModal ([10, 20] : List Nat)).activeIndex.toNat = some x
        ∧ (modalStep (openModal ([10, 20] : List Nat))
            ModalEvent.enter).callbackLog
          = (openModal ([10, 20] : List Nat)).callbackLog ++ [x]) :=
  ⟨by decide,
    (confirm_selects_activeIndex Nat (openModal [10, 20])
      (by decide) (by decide) (by decide)).2.1⟩

/-! ### The callback is invoked at most once per opened session -/

/-- Session invariant: while the modal is still open no callback has fired,
and over the whole session the callback has fired at most once. -/
def modalOnceInv {T : Type} (st : SelectableModalState T) : Prop :=
  (st.isOpen = true → st.callbackLog = []) ∧ st.callbackLog.length ≤ 1

theorem selectItem_cases {T : Type} (st : SelectableModalState T) (i : Int) :
    selectItem st i = st
    ∨ ((selectItem st i).callbackLog.length = st.callbackLog.length + 1
        ∧ (selectItem st i).isOpen = false) := by
  unfold selectItem
  split_ifs with h
  · right
    refine ⟨?_, rfl⟩
    have hn : i.toNat < st.items.length := by omega
    simp [closeModal, List.get?_eq_get hn, List.getElem?_eq_getElem hn]
  · left
    rfl

theorem modalStep_onceInv {T : Type} (st : SelectableModalState T)
    (e : ModalEvent) (h : modalOnceInv st) : modalOnceInv (modalStep st e) := by
  by_cases ho : st.isOpen = true
  · have hlog := h.1 ho
    cases e with
    | arrowUp =>
        have hred : modalStep st ModalEvent.arrowUp = navigateItems st (-1) := by
          simp [modalStep, ho]
        rw [hred]
        exact ⟨fun _ => by rw [navigateItems_callbackLog, hlog],
          by rw [navigateItems_callbackLog, hlog]; simp⟩
    | arrowDown =>
        have hred : modalStep st ModalEvent.arrowDown = navigateItems st 1 := by
          simp [modalStep, ho]
        rw [hred]
        exact ⟨fun _ => by rw [navigateItems_callbackLog, hlog],
          by rw [navigateItems_callbackLog, hlog]; simp⟩
    | enter =>
        have hred : modalStep st ModalEvent.enter
            = if 0 ≤ st.activeIndex ∧ st.activeIndex < (st.items.length : Int)
              then selectItem st st.activeIndex else st := by
          simp [modalStep, ho]
        rw [hred]
        split_ifs with hc
        · rcases selectItem_cases st st.activeIndex with he | ⟨hl, hopen'⟩
          · rw [he]; exact h
          · refine ⟨fun hcontra => ?_, ?_⟩
            · rw [hopen'] at hcontra
              simp at hcontra
            · rw [hl, hlog]
              simp
        · exact h
    | escape =>
        have hred : modalStep st ModalEvent.escape = closeModal st := by
          simp [modalStep, ho]
        rw [hred]
        refine ⟨fun hcontra => ?_, ?_⟩
        · simp [closeModal] at hcontra
        · simpa [closeModal] using h.2
    | click i =>
        have hred : modalStep st (ModalEvent.click i) = selectItem st i := by
          simp [modalStep, ho]
        rw [hred]
        rcases selectItem_cases st i with he | ⟨hl, hopen'⟩
        · rw [he]; exact h
        · refine ⟨fun hcontra => ?_, ?_⟩
          · rw [hopen'] at hcontra
            simp at hcontra
          · rw [hl, hlog]
            simp
    | mouseOver i =>
        have hred : modalStep st (ModalEvent.mouseOver i)
            = handleMouseOver st i := by
          simp [modalStep, ho]
        rw [hred]
        exact h
    | mouseLeave =>
        have hred : modalStep st ModalEvent.mouseLeave = handleMouseLeave st := by
          simp [modalStep, ho]
        rw [hred]
        exact h
  · have hred : modalStep st e = st := by simp [modalStep, ho]
    rw [hred]
    exact h

theorem openModal_onceInv {T : Type} (items : List T) :
    modalOnceInv (openModal items) := by
  unfold openModal
  split_ifs <;> exact ⟨fun _ => rfl, by simp [focusItem]⟩

theorem runModal_onceInv {T : Type} (items : List T) (evs : List ModalEvent) :
    modalOnceInv (runModal items evs) := by
  have key : ∀ (l : List ModalEvent) (st : SelectableModalState T),
      modalOnceInv st → modalOnceInv (l.foldl modalStep st) := by
    intro l
    induction l with
    | nil => intro st h; exact h
    | cons e l ih =>
        intro st h
        rw [List.foldl_cons]
        exact ih _ (modalStep_onceInv st e h)
  exact key evs _ (openModal_onceInv items)

/-- C3: in any reachable session state, a select on a valid index invokes
the callback with exactly `items[i]` and exactly once (the log afterwards is
precisely `[items[i]]`) and closes the picker; Cancel closes without ever
invoking the callback; and over any one opened session the callback fires
at most once. -/
theorem select_invokes_callback_exactly_once (T : Type) (items : List T)
    (evs : List ModalEvent) :
    ((runModal items evs).isOpen = true → (runModal items evs).callbackLog = [])
    ∧ (runModal items evs).callbackLog.length ≤ 1
    ∧ (∀ i : Int, 0 ≤ i → i < ((runModal items evs).items.length : Int) →
        (runModal items evs).isOpen = true →
        ∃ x, (runModal items evs).items.get? i.toNat = some x
          ∧ (modalStep (runModal items evs) (ModalEvent.click i)).callbackLog
            = [x]
          ∧ (modalStep (runModal items evs) (ModalEvent.click i)).isOpen
            = false)
    ∧ (modalStep (runModal items evs) ModalEvent.escape).callbackLog
        = (runModal items evs).callbackLog
    ∧ (modalStep (runModal items evs) ModalEvent.escape).isOpen = false := by
  have hinv := runModal_onceInv items evs
  refine ⟨hinv.1, hinv.2, ?_, ?_, ?_⟩
  · intro i h0 hi ho
    have hlog := hinv.1 ho
    have hred : modalStep (runModal items evs) (ModalEvent.click i)
        = selectItem (runModal items evs) i := by
      simp [modalStep, ho]
    have hn : i.toNat < (runModal items evs).items.length := by omega
    refine ⟨(runModal items evs).items.get ⟨i.toNat, hn⟩,
      List.get?_eq_get hn, ?_, ?_⟩
    · rw [hred]
      unfold selectItem
      rw [if_pos ⟨h0, hi⟩]
      simp [closeModal, hlog, List.get?_eq_get hn, List.getElem?_eq_getElem hn]
    · rw [hred]
      unfold selectItem
      rw [if_pos ⟨h0, hi⟩]
      rfl
  · by_cases ho : (runModal items evs).isOpen = true
    · have hred : modalStep (runModal items evs) ModalEvent.escape
          = closeModal (runModal items evs) := by
        simp [modalStep, ho]
      rw [hred]
      rfl
    · have hred : modalStep (runModal items evs) ModalEvent.escape
          = runModal items evs := by
        simp [modalStep, ho]
      rw [hred]
  · by_cases ho : (runModal items evs).isOpen = true
    · have hred : modalStep (runModal items evs) ModalEvent.escape
          = closeModal (runModal items evs) := by
        simp [modalStep, ho]
      rw [hred]
      rfl
    · have hred : modalStep (runModal items evs) ModalEvent.escape
          = runModal items evs := by
        simp [modalStep, ho]
      rw [hred]
      revert ho
      cases (runModal items evs).isOpen <;> simp

/-- Witness for C3: clicking index 1 in a freshly opened session over
`[7, 9]` logs exactly `[9]` and closes. -/
theorem select_invokes_callback_exactly_once_witness :
    ∃ x, (runModal ([7, 9] : List Nat) []).items.get? (1 : Int).toNat = some x
      ∧ (modalStep (runModal ([7, 9] : List Nat) [])
          (ModalEvent.click 1)).callbackLog = [x]
      ∧ (modalStep (runModal ([7, 9] : List Nat) [])
          (ModalEvent.click 1)).isOpen = false :=
  (select_invokes_callback_exactly_once Nat [7, 9] []).2.2.1 1
    (by decide) (by decide) (by decide)

/-- C10: invoking Select on an index outside the item range, on an open
picker, reports nothing, invokes no callback, does not close the picker, and
leaves the whole session state unchanged. -/
theorem selectItem_out_of_range_noop (T : Type) (st : SelectableModalState T)
    (i : Int) (hopen : st.isOpen = true)
    (h : i < 0 ∨ (st.items.length : Int) ≤ i) :
    selectItem st i = st ∧ modalStep st (ModalEvent.click i) = st := by
  have hc : ¬ (0 ≤ i ∧ i < (st.items.length : Int)) := by omega
  have h1 : selectItem st i = st := by
    unfold selectItem
    rw [if_neg hc]
  exact ⟨h1, by simp [modalStep, hopen, h1]⟩

/-- Witness for C10: clicking index 3 in an open one-item session changes
nothing. -/
theorem selectItem_out_of_range_noop_witness :
    (openModal ([5] : List Nat)).isOpen = true
    ∧ modalStep (openModal ([5] : List Nat)) (ModalEvent.click 3)
      = openModal ([5] : List Nat) :=
  ⟨by decide,
    (selectItem_out_of_range_noop Nat (openModal [5]) 3
      (by decide) (by decide)).2⟩
